import Mathlib

/-!
Verification of the tinyos4 IPC subsystem (pipes, sockets, user threads)
against its natural-language specification.

The definitions below are a shallow embedding of the C sources:
  src/kernel_pipe.c, src/kernel_socket.c, src/kernel_threads.c.
Pointers are modelled as `Option`/`Bool` nullability flags, the circular
doubly-linked character list as a `List Char` indexed modulo its length
(node `i`'s `next` is node `(i+1) % size`, which is how `init_list` links
the nodes for any size ≥ 2), and C `int` results as `Int`.  A blocking
suspension point (`kernel_wait`) reached in single-threaded execution is
modelled as `Option.none`.
-/

set_option maxRecDepth 2000

/-- The NUL character `'\0'` used by the C code as the "empty slot" marker. -/
def c0 : Char := Char.ofNat 0

/-- PIPE_BUFFER_SIZE from src/kernel_streams.h line 5. -/
def PIPE_BUFFER_SIZE : Nat := 32768

/-- The pipe control block, src/kernel_streams.h lines 16-23.
`reader`/`writer` are the nullable endpoint FCB pointers (`true` = open,
i.e. non-NULL); `w_position`/`r_position` are the cursor nodes of the
circular list, modelled as indices; `BUFFER` is the circular list itself;
`written_bytes` counts unread bytes.  The two condition variables carry no
state of their own and are modelled where waiting matters. -/
structure pipe_cb where
  reader : Bool
  writer : Bool
  w_position : Nat
  r_position : Nat
  buffer : List Char
  written_bytes : Nat
  deriving Repr, DecidableEq

/-- `init_list size NULL` (src/kernel_pipe.c lines 14-44): a circular list of
`size` nodes, every character `'\0'`. -/
def init_list (size : Nat) : List Char := List.replicate size c0

/-- `init_pipe_obj` generalized over the buffer size (src/kernel_pipe.c lines
72-83): both cursors at the head of the buffer, `written_bytes = 0`, both
endpoints open (they are wired to the freshly reserved FCBs by the callers). -/
def init_pipe_obj_sized (size : Nat) : pipe_cb :=
  { reader := true, writer := true, w_position := 0, r_position := 0,
    buffer := init_list size, written_bytes := 0 }

/-- `init_pipe_obj()` as in the source: buffer size PIPE_BUFFER_SIZE. -/
def init_pipe_obj : pipe_cb := init_pipe_obj_sized PIPE_BUFFER_SIZE

/-- One iteration of the write loop body (src/kernel_pipe.c lines 183-185):
store the byte at `w_position`, advance the cursor to the `next` node,
increment `written_bytes`. -/
def writeOne (p : pipe_cb) (c : Char) : pipe_cb :=
  { p with buffer := p.buffer.set p.w_position c,
           w_position := (p.w_position + 1) % p.buffer.length,
           written_bytes := p.written_bytes + 1 }

/-- The write loop of `pipe_write` (src/kernel_pipe.c lines 179-186) over the
list of bytes to be written.  `Except.error` is the defensive early
`return -1` taken when the slot under the write cursor is not `'\0'`
(line 180); it carries the partially mutated pipe state. -/
def writeLoop (p : pipe_cb) : List Char → Except pipe_cb pipe_cb
  | [] => Except.ok p
  | c :: rest =>
    if p.buffer.getD p.w_position c0 ≠ c0 then Except.error p
    else writeLoop (writeOne p c) rest

/-- `pipe_write` (src/kernel_pipe.c lines 149-192) in its single-threaded
semantics.  `availableSpace` is computed once, before the wait loop (line
164), exactly as in the source.  When `availableSpace == 0` and the reader
is open the source enters `while(availableSpace == 0 && reader != NULL)
kernel_wait(...)`; since `availableSpace` is a stale local this loop cannot
be exited by a write becoming possible, and in single-threaded execution
the call suspends: modelled as `none`.  The returned `Int` is the C return
value; the `pipe_cb` is the state of the shared pipe afterwards. -/
def pipe_write (p : pipe_cb) (buf : List Char) (n : Nat) : Option (Int × pipe_cb) :=
  if p.writer = false then some (-1, p)
  else if p.reader = false then some (-1, p)
  else
    let availableSpace := p.buffer.length - p.written_bytes
    if availableSpace = 0 then none
    else
      let bytes_to_write := min n availableSpace
      match writeLoop p (buf.take bytes_to_write) with
      | Except.error q => some (-1, q)
      | Except.ok q => some ((bytes_to_write : Int), q)

/-- One iteration of the read loop body (src/kernel_pipe.c lines 232-235):
fetch the byte at `r_position`, reset the slot to `'\0'`, advance the
cursor, decrement `written_bytes`. -/
def readOne (p : pipe_cb) : Char × pipe_cb :=
  (p.buffer.getD p.r_position c0,
   { p with buffer := p.buffer.set p.r_position c0,
            r_position := (p.r_position + 1) % p.buffer.length,
            written_bytes := p.written_bytes - 1 })

/-- The read loop of `pipe_read` (src/kernel_pipe.c lines 231-236), returning
the bytes copied to the user buffer and the pipe state afterwards. -/
def readLoop (p : pipe_cb) : Nat → List Char × pipe_cb
  | 0 => ([], p)
  | Nat.succ k =>
    let cp := readOne p
    let rest := readLoop cp.2 k
    (cp.1 :: rest.1, rest.2)

/-- `pipe_read` (src/kernel_pipe.c lines 202-242) in its single-threaded
semantics: `-1` if the reader endpoint is closed, `0` at EOF (writer closed
and no data), `none` when the call suspends on `has_data` (buffer empty,
writer still open), else read `min n written_bytes` bytes. -/
def pipe_read (p : pipe_cb) (n : Nat) : Option (Int × List Char × pipe_cb) :=
  if p.reader = false then some (-1, [], p)
  else if p.writer = false ∧ p.written_bytes = 0 then some (0, [], p)
  else if p.written_bytes = 0 then none
  else
    let bytes_to_read := min n p.written_bytes
    let r := readLoop p bytes_to_read
    some ((bytes_to_read : Int), r.1, r.2)

/-- `pipe_writer_close` (src/kernel_pipe.c lines 254-274).  `none` models a
NULL pipe pointer, and the result's `none` models the pipe being freed. -/
def pipe_writer_close (p : Option pipe_cb) : Int × Option pipe_cb :=
  match p with
  | none => (-1, none)
  | some q =>
    if q.writer = false then (-1, some q)
    else
      let q1 : pipe_cb := { q with writer := false }
      if q1.reader = false then (0, none)
      else (0, some q1)

/-- `pipe_reader_close` (src/kernel_pipe.c lines 275-295). -/
def pipe_reader_close (p : Option pipe_cb) : Int × Option pipe_cb :=
  match p with
  | none => (-1, none)
  | some q =>
    if q.reader = false then (-1, some q)
    else
      let q1 : pipe_cb := { q with reader := false }
      if q1.writer = false then (0, none)
      else (0, some q1)

/-- Well-formedness of a pipe state, as established by construction and
maintained by the loops: the read cursor is a valid index, at most a
bufferful is unread, and the write cursor sits `written_bytes` slots past
the read cursor (cyclically). -/
def pipeWF (p : pipe_cb) : Prop :=
  p.r_position < p.buffer.length ∧
  p.written_bytes ≤ p.buffer.length ∧
  p.w_position = (p.r_position + p.written_bytes) % p.buffer.length

/-- The cyclic-distance form of the occupancy invariant:
`0 ≤ count ≤ capacity` and `(w_pos - r_pos) mod capacity = count mod
capacity` (`0 ≤ count` is automatic for a natural number). -/
def cyclicInv (p : pipe_cb) : Prop :=
  p.written_bytes ≤ p.buffer.length ∧
  ((p.w_position : Int) - (p.r_position : Int)) % (p.buffer.length : Int)
    = (p.written_bytes : Int) % (p.buffer.length : Int)

/-- The unread bytes of a pipe, in the order `pipe_read` would deliver them:
bytes at the `written_bytes` consecutive (cyclic) slots starting at the
read cursor. -/
def readWindow (p : pipe_cb) : List Char :=
  (List.range p.written_bytes).map
    (fun i => p.buffer.getD ((p.r_position + i) % p.buffer.length) c0)

/-- Every slot outside the unread region holds `'\0'`. -/
def nulOutside (p : pipe_cb) : Prop :=
  ∀ j, j < p.buffer.length →
    (∀ i, i < p.written_bytes → j ≠ (p.r_position + i) % p.buffer.length) →
    p.buffer.getD j c0 = c0

/-- A sequence of `pipe_read` calls with the given request sizes, returning
the concatenation of the bytes delivered and the final pipe state; the
sequence stops if a call suspends. -/
def pipe_read_many (p : pipe_cb) : List Nat → List Char × pipe_cb
  | [] => ([], p)
  | n :: ns =>
    match pipe_read p n with
    | none => ([], p)
    | some (_, cs, q) =>
      let rest := pipe_read_many q ns
      (cs ++ rest.1, rest.2)

/-- The pipe state reached by writing `B` into a fresh pipe of capacity
`cap` (with `B.length ≤ cap`): the buffer holds `B` followed by NUL
padding, the write cursor has advanced `B.length` slots, and `B.length`
bytes are unread. -/
def fullWriteState (cap : Nat) (B : List Char) : pipe_cb :=
  { reader := true, writer := true, w_position := B.length % cap, r_position := 0,
    buffer := B ++ List.replicate (cap - B.length) c0, written_bytes := B.length }

/-- The completely full pipe: every slot of the fresh pipe written with `'A'`. -/
def fullA : pipe_cb :=
  { reader := true, writer := true, w_position := 0, r_position := 0,
    buffer := List.replicate PIPE_BUFFER_SIZE 'A', written_bytes := PIPE_BUFFER_SIZE }

/-- The local `availableSpace` as computed ONCE at entry to `pipe_write`
(src/kernel_pipe.c line 164), before the wait loop; the source never
recomputes it. -/
def availableSpaceAtEntry (p : pipe_cb) : Nat :=
  p.buffer.length - p.written_bytes

/-- The guard of `pipe_write`'s wait loop
`while(availableSpace == 0 && pipe_to_write_to->reader != NULL)`
(src/kernel_pipe.c line 165) as re-evaluated when a blocked writer wakes
up: `availableSpace` is the stale local of the suspended call, and only
the `reader` field is re-read from the shared pipe. `true` means the
writer calls `kernel_wait` again. -/
def pipe_write_block_guard (availableSpace : Nat) (p : pipe_cb) : Bool :=
  (availableSpace == 0) && p.reader

/-- The pipe state after the reader drains one byte from the full pipe
`fullA`: the consumed slot is reset to NUL and one slot of space exists. -/
def drainedA : pipe_cb :=
  { reader := true, writer := true, w_position := 0, r_position := 1,
    buffer := c0 :: List.replicate 32767 'A', written_bytes := 32767 }

/-- Socket states, src/kernel_socket.h lines 11-15. -/
inductive socket_type
  | SOCKET_LISTENER
  | SOCKET_UNBOUND
  | SOCKET_PEER
  deriving Repr, DecidableEq

/-- Shutdown modes of `sys_ShutDown` (tinyos.h); the three cases of the
switch at src/kernel_socket.c lines 277-298. -/
inductive shutdown_mode
  | SHUTDOWN_READ
  | SHUTDOWN_WRITE
  | SHUTDOWN_BOTH
  deriving Repr, DecidableEq

/-- The socket control block, src/kernel_socket.h lines 52-62, restricted to
the fields `sys_ShutDown` reads: the type tag, the bound port, and the peer
variant's `read_pipe`, `write_pipe` and `peer` fields.  `peer_is_nonnull`
models the `peer_s.peer == NULL` test at line 272 of src/kernel_socket.c. -/
structure socket_cb where
  refcount : Int
  type : socket_type
  port : Int
  peer_read_pipe : Option pipe_cb
  peer_write_pipe : Option pipe_cb
  peer_is_nonnull : Bool
  deriving Repr, DecidableEq

/-- `sys_ShutDown` (src/kernel_socket.c lines 255-303), exactly as written:
the body begins with an unconditional `return -1` (line 261), so every call
returns `-1` and the socket is left untouched; all the code after line 261
(the fid check, the peer check and the switch closing the pipe ends) is
dead. -/
def sys_ShutDown (s : socket_cb) (how : shutdown_mode) : Int × socket_cb :=
  (-1, s)

/-- The dead code of `sys_ShutDown` (src/kernel_socket.c lines 263-302): the
behaviour the function would have were the early `return -1` removed.
`fid_ok` stands for the fid validity check of line 264. -/
def sys_ShutDown_dead_code (fid_ok : Bool) (s : socket_cb) (how : shutdown_mode) :
    Int × socket_cb :=
  if fid_ok = false then (-1, s)
  else if s.type ≠ socket_type.SOCKET_PEER ∨ s.peer_is_nonnull = false then (-1, s)
  else
    match how with
    | shutdown_mode.SHUTDOWN_READ =>
      let _ := pipe_reader_close s.peer_read_pipe
      (0, { s with peer_read_pipe := none })
    | shutdown_mode.SHUTDOWN_WRITE =>
      let _ := pipe_writer_close s.peer_write_pipe
      (0, { s with peer_write_pipe := none })
    | shutdown_mode.SHUTDOWN_BOTH =>
      let _ := pipe_writer_close s.peer_write_pipe
      let _ := pipe_reader_close s.peer_read_pipe
      (0, { s with peer_read_pipe := none, peer_write_pipe := none })

/-- A connected peer socket with both pipes open. -/
def peerSock : socket_cb :=
  { refcount := 0, type := socket_type.SOCKET_PEER, port := 5,
    peer_read_pipe := some init_pipe_obj, peer_write_pipe := some init_pipe_obj,
    peer_is_nonnull := true }

/-- The CV a joiner suspends on, per src/kernel_threads.c line 142:
`kernel_wait(&curthread->ptcb->exit_cv, SCHED_USER)` — the CALLER's own
PTCB's `exit_cv`, not the join target's.  PTCBs are named by their ids;
`exit_cv` of PTCB `t` is identified with `t`. -/
def join_wait_cv (self target : Nat) : Nat :=
  self

/-- A joiner blocking in `sys_ThreadJoin` (line 142) is added to the wait
registry, a list of pairs (blocked thread's ptcb id, ptcb id whose
`exit_cv` it waits on). -/
def threadJoin_block (self target : Nat) (w : List (Nat × Nat)) : List (Nat × Nat) :=
  (self, join_wait_cv self target) :: w

/-- `sys_ThreadExit` lines 191-194: the exiting thread sets `exited` and
broadcasts its OWN `exit_cv`; the broadcast releases exactly the waiters
registered on that cv, leaving the others blocked. -/
def threadExit_still_blocked (target : Nat) (w : List (Nat × Nat)) : List (Nat × Nat) :=
  w.filter (fun q => q.2 ≠ target)

/-- The state a thread blocked inside `sys_Accept`'s wait loop can observe
when it wakes up: whether the listener's request queue is empty
(`is_rlist_empty(&listener->listener_s.queue)`, line 136) and whether the
listener is still installed
(`listener->type == SOCKET_LISTENER && PORT_MAP[listener->port] == listener`,
line 144). -/
structure AcceptWaitState where
  queue_is_empty : Bool
  listener_installed : Bool
  deriving Repr, DecidableEq

/-- What a woken acceptor does, per the loop at src/kernel_socket.c lines
136-138: the guard tests ONLY queue emptiness, so with an empty queue the
thread calls `kernel_wait` again; the validation of line 144 runs only
after the loop exits. -/
inductive AcceptWakeStep
  | wait_again
  | exit_loop
  deriving Repr, DecidableEq

/-- The loop guard of line 136 as evaluated on wake-up. -/
def accept_loop_guard (s : AcceptWaitState) : AcceptWakeStep :=
  if s.queue_is_empty then AcceptWakeStep.wait_again else AcceptWakeStep.exit_loop

/-- The post-loop validation of line 144 (`false` means `return -1`). -/
def accept_post_loop_check (s : AcceptWaitState) : Bool :=
  s.listener_installed

/-- The wait loop run with `fuel` wake-ups from a fixed observable state
(no new request can arrive once the listener is uninstalled, see
`connect_enqueue_allowed`): `some ()` iff the loop exits within `fuel`
wake-ups; `none` means the acceptor is still blocked in `kernel_wait`. -/
def accept_wait_loop : Nat → AcceptWaitState → Option Unit
  | 0, _ => none
  | Nat.succ fuel, s =>
    match accept_loop_guard s with
    | AcceptWakeStep.wait_again => accept_wait_loop fuel s
    | AcceptWakeStep.exit_loop => some ()

/-- `socket_close`, listener case (src/kernel_socket.c lines 347-353):
uninstall the socket from `PORT_MAP[port]` and broadcast `req_available`
(the broadcast wakes the acceptor but changes nothing it observes). -/
def socket_close_listener (s : AcceptWaitState) : AcceptWaitState :=
  { s with listener_installed := false }

/-- `sys_Connect` lines 221-224: a connection request is enqueued only when
`PORT_MAP[port]` still holds a listener, so after `socket_close` the
queue observed by the blocked acceptor stays empty. -/
def connect_enqueue_allowed (listener_installed : Bool) : Bool :=
  listener_installed

/-- The connection request object, src/kernel_socket.h lines 74-79,
restricted to the `admitted` flag. -/
structure connection_request where
  admitted : Int
  deriving Repr, DecidableEq

/-- `sys_Accept` after popping a request from the queue, src/kernel_socket.c
lines 149-160: the source sets `request->admitted = 1` (line 151) BEFORE
attempting to reserve the descriptor for the new peer socket
(`peer_fid = sys_Socket(...)`, line 154); if that fails
(`peer_fid == -1`), Accept returns `-1` without resetting the flag and
without signalling `connected_cv`. -/
def accept_serve_request (req : connection_request) (peer_fid : Int) :
    Int × connection_request :=
  let req1 : connection_request := { req with admitted := 1 }
  if peer_fid = -1 then (-1, req1)
  else (peer_fid, req1)

/-- `sys_Connect` after its timed wait, src/kernel_socket.c line 252:
`return (request->admitted == 1) ? 0 : -1`. -/
def connect_after_wait (req : connection_request) : Int :=
  if req.admitted = 1 then 0 else -1

/-- The per-user-thread control block (PTCB), restricted to the fields the
join/detach/exit state machine reads: `exited`, `detached`, `exitval`,
`refcount`, plus a ghost `freed` flag recording that `free()` was called
on the block. -/
structure PTCB where
  exited : Bool
  detached : Bool
  exitval : Int
  refcount : Int
  freed : Bool
  deriving Repr, DecidableEq

/-- `sys_ThreadJoin` after its wait loop, src/kernel_threads.c lines 150-158:
decrement the target's refcount; if it reached 0, unlink and `free` the
PTCB.  (The function then returns 0, line 160.)  The wait loop (line 141)
only exits when `exited == 1 ∨ detached == 1`. -/
def threadJoin_after_wait (p : PTCB) : Int × PTCB :=
  let p1 : PTCB := { p with refcount := p.refcount - 1 }
  if p1.refcount = 0 then (0, { p1 with freed := true })
  else (0, p1)

/-- `sys_ThreadDetach`, src/kernel_threads.c lines 167-179: if the guard of
line 170 fails (TCB exited, absent, or owned by another process) return
`-1`; otherwise set `detached` and broadcast `exit_cv`.  It never frees
the PTCB. -/
def sys_ThreadDetach (guard_fails : Bool) (p : PTCB) : Int × PTCB :=
  if guard_fails then (-1, p)
  else (0, { p with detached := true })

/-- `sys_ThreadExit`, src/kernel_threads.c lines 184-258, restricted to the
exiting thread's PTCB and the process `thread_count`: decrement
`thread_count`, record `exitval`, set `exited`, decrement `refcount`,
broadcast `exit_cv`; ONLY when this was the last thread
(`thread_count == 0` after the decrement, line 196) and `refcount == 0`
(line 239) is the PTCB unlinked and freed.  Returns the new thread count
and the PTCB state. -/
def sys_ThreadExit (thread_count : Int) (xv : Int) (p : PTCB) : Int × PTCB :=
  let tc := thread_count - 1
  let p1 : PTCB := { p with exitval := xv, exited := true, refcount := p.refcount - 1 }
  if tc = 0 then
    if p1.refcount = 0 then (tc, { p1 with freed := true }) else (tc, p1)
  else (tc, p1)

/-- A running PTCB with no joiners (refcount 1, not exited, not detached). -/
def runningPTCB : PTCB := ⟨false, false, 0, 1, false⟩

/-- An exited PTCB with one joiner about to finish (refcount 1). -/
def exitedPTCB : PTCB := ⟨true, false, 0, 1, false⟩

/-- Modelled from the spec: `rlist_find` lives in tinyos's util library,
which is not under src/.  Per the call at src/kernel_threads.c line 113 —
whose `fail` argument is NULL and whose comment (line 110) reads "find the
thread with the given tid, return NULL if unsuccessful" — it returns the
list node whose key matches `tid`, or NULL (here `none`) when no node
matches.  PTCB pointers are modelled as their (nonzero) addresses. -/
def rlist_find (l : List Nat) (tid : Nat) : Option Nat :=
  if tid ∈ l then some tid else none

/-- The possible outcomes of the lookup phase of `sys_ThreadJoin`. -/
inductive JoinLookupOutcome
  | returns (v : Int)
  | null_deref
  | proceeds (ptcb : Nat)
  deriving Repr, DecidableEq

/-- `sys_ThreadJoin` lines 105-119 of src/kernel_threads.c: reject
`tid == 0` and `tid == ThreadSelf()`; then
`rlnode* tmp = rlist_find(&curproc->ptcb_list, (PTCB*)tid, NULL)` followed
immediately by `PTCB* thread_to_join = tmp->ptcb` (line 114) — when the
find fails, `tmp` is NULL and the field access dereferences a NULL
pointer, which is modelled as the `null_deref` outcome; the
`thread_to_join == NULL` check of line 117 comes only after that access
(and can never fire on a found node, whose `ptcb` field is the non-null
PTCB the node was initialized with). -/
def threadJoin_lookup (self tid : Nat) (thread_list : List Nat) : JoinLookupOutcome :=
  if tid = 0 ∨ tid = self then JoinLookupOutcome.returns (-1)
  else
    match rlist_find thread_list tid with
    | none => JoinLookupOutcome.null_deref
    | some node_ptcb =>
      if node_ptcb = 0 then JoinLookupOutcome.returns (-1)
      else JoinLookupOutcome.proceeds node_ptcb

lemma getD_set_ne {α : Type} [Inhabited α] (l : List α) (i j : Nat) (a d : α)
    (h : i ≠ j) : (l.set i a).getD j d = l.getD j d := by
  induction l generalizing i j with
  | nil => simp
  | cons x xs ih =>
    cases i with
    | zero =>
      cases j with
      | zero => exact absurd rfl h
      | succ j => simp
    | succ i =>
      cases j with
      | zero => simp
      | succ j =>
        simp only [List.set_cons_succ, List.getD_cons_succ]
        exact ih i j (fun hh => h (by rw [hh]))

lemma set_append_len {α : Type} (pre t : List α) (x c : α) :
    (pre ++ x :: t).set pre.length c = pre ++ c :: t := by
  induction pre with
  | nil => rfl
  | cons a pre ih => simp [ih]

lemma getD_append_len {α : Type} [Inhabited α] (pre t : List α) (x d : α) :
    (pre ++ x :: t).getD pre.length d = x := by
  induction pre with
  | nil => rfl
  | cons a pre ih => simpa using ih

lemma getD_append_lt {α : Type} [Inhabited α] (l l2 : List α) (i : Nat) (d : α)
    (h : i < l.length) : (l ++ l2).getD i d = l.getD i d := by
  induction l generalizing i with
  | nil => simp at h
  | cons a l ih =>
    cases i with
    | zero => rfl
    | succ i =>
      simp only [List.cons_append, List.getD_cons_succ]
      exact ih i (by simpa using h)

lemma map_getD_range {α : Type} [Inhabited α] (l : List α) (d : α) :
    (List.range l.length).map (fun i => l.getD i d) = l := by
  induction l with
  | nil => simp
  | cons a t ih =>
    have h1 : List.range (a :: t).length = 0 :: (List.range t.length).map Nat.succ := by
      simpa using List.range_succ_eq_map t.length
    rw [h1]
    simp only [List.map_cons, List.map_map, List.getD_cons_zero]
    refine congrArg (List.cons a) ?_
    have h2 : ((fun i => (a :: t).getD i d) ∘ Nat.succ) = (fun i => t.getD i d) := by
      funext i
      simp [Function.comp]
    rw [h2, ih]

lemma add_mod_ne_self (r s len : Nat) (hr : r < len) (hs0 : 0 < s)
    (hslen : s < len) : (r + s) % len ≠ r := by
  intro h
  have hmod : r ≡ r + s [MOD len] := by
    unfold Nat.ModEq
    rw [h, Nat.mod_eq_of_lt hr]
  have hdvd : len ∣ s := by
    have := (Nat.modEq_iff_dvd' (Nat.le_add_right r s)).mp hmod
    simpa using this
  have := Nat.eq_zero_of_dvd_of_lt hdvd hslen
  omega

lemma readOne_spec (p : pipe_cb) (hwf : pipeWF p) (hpos : 0 < p.written_bytes) :
    pipeWF (readOne p).2 ∧
    (readOne p).2.buffer.length = p.buffer.length ∧
    (readOne p).2.written_bytes = p.written_bytes - 1 ∧
    (readOne p).2.w_position = p.w_position ∧
    (readOne p).2.reader = p.reader ∧
    (readOne p).2.writer = p.writer ∧
    readWindow p = (readOne p).1 :: readWindow (readOne p).2 := by
  obtain ⟨hr, hwb, hw⟩ := hwf
  have hlen0 : 0 < p.buffer.length := Nat.lt_of_le_of_lt (Nat.zero_le _) hr
  obtain ⟨m, hm⟩ : ∃ m, p.written_bytes = m + 1 :=
    ⟨p.written_bytes - 1, (Nat.succ_pred_eq_of_pos hpos).symm⟩
  refine ⟨⟨?_, ?_, ?_⟩, ?_, ?_, ?_, ?_, ?_, ?_⟩
  · simpa [readOne] using Nat.mod_lt _ hlen0
  · simp [readOne]; omega
  · simp only [readOne, List.length_set]
    rw [hw, Nat.mod_add_mod]
    congr 1
    omega
  · simp [readOne]
  · simp [readOne]
  · simp [readOne]
  · simp [readOne]
  · simp [readOne]
  · simp only [readOne, readWindow, List.length_set, hm]
    rw [List.range_succ_eq_map, List.map_cons, List.map_map]
    have h0 : p.buffer.getD ((p.r_position + 0) % p.buffer.length) c0
        = p.buffer.getD p.r_position c0 := by
      rw [Nat.add_zero, Nat.mod_eq_of_lt hr]
    rw [h0]
    refine congrArg (List.cons _) (List.map_congr_left ?_)
    intro i hi
    have him : i < m := List.mem_range.mp hi
    have hidx : ((p.r_position + 1) % p.buffer.length + i) % p.buffer.length
        = (p.r_position + (i + 1)) % p.buffer.length := by
      rw [Nat.mod_add_mod]
      congr 1
      omega
    have hne : p.r_position ≠ (p.r_position + (i + 1)) % p.buffer.length := by
      have : (p.r_position + (i + 1)) % p.buffer.length ≠ p.r_position :=
        add_mod_ne_self _ _ _ hr (Nat.succ_pos i) (by omega)
      exact fun hc => this hc.symm
    simp only [Function.comp, hidx]
    rw [getD_set_ne _ _ _ _ _ hne]

lemma readLoop_spec (k : Nat) :
    ∀ (p : pipe_cb), pipeWF p → k ≤ p.written_bytes →
    (readLoop p k).1 = (readWindow p).take k ∧
    readWindow (readLoop p k).2 = (readWindow p).drop k ∧
    pipeWF (readLoop p k).2 ∧
    (readLoop p k).2.buffer.length = p.buffer.length ∧
    (readLoop p k).2.written_bytes = p.written_bytes - k ∧
    (readLoop p k).2.w_position = p.w_position ∧
    (readLoop p k).2.reader = p.reader ∧
    (readLoop p k).2.writer = p.writer := by
  induction k with
  | zero => intro p hwf hk; exact ⟨rfl, rfl, hwf, rfl, rfl, rfl, rfl, rfl⟩
  | succ k ih =>
    intro p hwf hk
    have hpos : 0 < p.written_bytes := Nat.lt_of_lt_of_le (Nat.succ_pos k) hk
    obtain ⟨hwf1, hlen1, hwb1, hwp1, hrd1, hwr1, hwin1⟩ := readOne_spec p hwf hpos
    have hk1 : k ≤ (readOne p).2.written_bytes := by omega
    obtain ⟨ih1, ih2, ih3, ih4, ih5, ih6, ih7, ih8⟩ := ih (readOne p).2 hwf1 hk1
    refine ⟨?_, ?_, ?_, ?_, ?_, ?_, ?_, ?_⟩
    · simp only [readLoop, hwin1, List.take_succ_cons, ih1]
    · simp only [readLoop, hwin1, List.drop_succ_cons, ih2]
    · simpa [readLoop] using ih3
    · simp only [readLoop]; rw [ih4, hlen1]
    · simp only [readLoop]; rw [ih5, hwb1]; omega
    · simp only [readLoop]; rw [ih6, hwp1]
    · simp only [readLoop]; rw [ih7, hrd1]
    · simp only [readLoop]; rw [ih8, hwr1]

lemma pipe_read_spec (p : pipe_cb) (n : Nat) (hwf : pipeWF p) (r : Int)
    (cs : List Char) (q : pipe_cb) (h : pipe_read p n = some (r, cs, q)) :
    cs ++ readWindow q = readWindow p ∧ pipeWF q ∧
    q.buffer.length = p.buffer.length ∧ q.reader = p.reader ∧
    q.writer = p.writer := by
  unfold pipe_read at h
  split_ifs at h with h1 h2 h3
  · simp only [Option.some.injEq, Prod.mk.injEq] at h
    obtain ⟨-, hcs, hq⟩ := h
    subst hcs; subst hq
    exact ⟨by simp, hwf, rfl, rfl, rfl⟩
  · simp only [Option.some.injEq, Prod.mk.injEq] at h
    obtain ⟨-, hcs, hq⟩ := h
    subst hcs; subst hq
    exact ⟨by simp, hwf, rfl, rfl, rfl⟩
  · simp only [Option.some.injEq, Prod.mk.injEq] at h
    obtain ⟨-, hcs, hq⟩ := h
    subst hcs; subst hq
    have hk : min n p.written_bytes ≤ p.written_bytes := Nat.min_le_right n _
    obtain ⟨e1, e2, e3, e4, -, -, e7, e8⟩ :=
      readLoop_spec (min n p.written_bytes) p hwf hk
    refine ⟨?_, e3, e4, e7, e8⟩
    rw [e1, e2]
    exact List.take_append_drop _ _

lemma pipe_read_many_spec (ns : List Nat) :
    ∀ p : pipe_cb, pipeWF p →
    (pipe_read_many p ns).1 ++ readWindow (pipe_read_many p ns).2 = readWindow p := by
  induction ns with
  | nil => intro p hwf; simp [pipe_read_many]
  | cons n ns ih =>
    intro p hwf
    unfold pipe_read_many
    cases hcall : pipe_read p n with
    | none => simp
    | some v =>
      obtain ⟨r, cs, q⟩ := v
      obtain ⟨hwin, hwfq, -, -, -⟩ := pipe_read_spec p n hwf r cs q hcall
      simp only []
      rw [List.append_assoc, ih q hwfq, hwin]

lemma writeOne_wf (p : pipe_cb) (c : Char) (hwf : pipeWF p)
    (hlt : p.written_bytes < p.buffer.length) :
    pipeWF (writeOne p c) ∧
    (writeOne p c).buffer.length = p.buffer.length ∧
    (writeOne p c).r_position = p.r_position ∧
    (writeOne p c).written_bytes = p.written_bytes + 1 ∧
    (writeOne p c).reader = p.reader ∧ (writeOne p c).writer = p.writer := by
  obtain ⟨hr, hwb, hw⟩ := hwf
  refine ⟨⟨?_, ?_, ?_⟩, ?_, ?_, ?_, ?_, ?_⟩
  · simpa [writeOne] using hr
  · simp only [writeOne, List.length_set]
    omega
  · simp only [writeOne, List.length_set]
    rw [hw, Nat.mod_add_mod, Nat.add_assoc]
  · simp [writeOne]
  · simp [writeOne]
  · simp [writeOne]
  · simp [writeOne]
  · simp [writeOne]

lemma writeLoop_wf (L : List Char) :
    ∀ p : pipe_cb, pipeWF p → p.written_bytes + L.length ≤ p.buffer.length →
    (∀ q, writeLoop p L = Except.ok q →
        pipeWF q ∧ q.buffer.length = p.buffer.length ∧
        q.r_position = p.r_position ∧
        q.written_bytes = p.written_bytes + L.length ∧
        q.reader = p.reader ∧ q.writer = p.writer) ∧
    (∀ q, writeLoop p L = Except.error q →
        pipeWF q ∧ q.buffer.length = p.buffer.length ∧
        q.reader = p.reader ∧ q.writer = p.writer) := by
  induction L with
  | nil =>
    intro p hwf hle
    constructor
    · intro q hq
      simp only [writeLoop] at hq
      cases hq
      exact ⟨hwf, rfl, rfl, by simp, rfl, rfl⟩
    · intro q hq
      simp [writeLoop] at hq
  | cons c rest ih =>
    intro p hwf hle
    have hlt : p.written_bytes < p.buffer.length := by
      simp only [List.length_cons] at hle; omega
    obtain ⟨hwf1, hlen1, hr1, hwb1, hrd1, hwr1⟩ := writeOne_wf p c hwf hlt
    by_cases hc : p.buffer.getD p.w_position c0 ≠ c0
    · constructor
      · intro q hq
        simp only [writeLoop, if_pos hc] at hq
        exact Except.noConfusion hq
      · intro q hq
        simp only [writeLoop, if_pos hc] at hq
        cases hq
        exact ⟨hwf, rfl, rfl, rfl⟩
    · have hle1 : (writeOne p c).written_bytes + rest.length
          ≤ (writeOne p c).buffer.length := by
        rw [hwb1, hlen1]
        simp only [List.length_cons] at hle
        omega
      obtain ⟨ihok, iherr⟩ := ih (writeOne p c) hwf1 hle1
      constructor
      · intro q hq
        simp only [writeLoop, if_neg hc] at hq
        obtain ⟨a1, a2, a3, a4, a5, a6⟩ := ihok q hq
        refine ⟨a1, by rw [a2, hlen1], by rw [a3, hr1], ?_,
          by rw [a5, hrd1], by rw [a6, hwr1]⟩
        rw [a4, hwb1]
        simp only [List.length_cons]
        omega
      · intro q hq
        simp only [writeLoop, if_neg hc] at hq
        obtain ⟨a1, a2, a3, a4⟩ := iherr q hq
        exact ⟨a1, by rw [a2, hlen1], by rw [a3, hrd1], by rw [a4, hwr1]⟩

lemma pipe_write_wf (p : pipe_cb) (buf : List Char) (n : Nat) (hwf : pipeWF p)
    (r : Int) (q : pipe_cb) (h : pipe_write p buf n = some (r, q)) :
    pipeWF q ∧ q.buffer.length = p.buffer.length ∧
    q.reader = p.reader ∧ q.writer = p.writer := by
  simp only [pipe_write] at h
  split_ifs at h with h1 h2 h3
  · simp only [Option.some.injEq, Prod.mk.injEq] at h
    obtain ⟨-, hq⟩ := h
    subst hq
    exact ⟨hwf, rfl, rfl, rfl⟩
  · simp only [Option.some.injEq, Prod.mk.injEq] at h
    obtain ⟨-, hq⟩ := h
    subst hq
    exact ⟨hwf, rfl, rfl, rfl⟩
  · have hbound : p.written_bytes
        + (buf.take (min n (p.buffer.length - p.written_bytes))).length
        ≤ p.buffer.length := by
      simp only [List.length_take]
      have h4 : min n (p.buffer.length - p.written_bytes)
          ≤ p.buffer.length - p.written_bytes := Nat.min_le_right _ _
      have h5 : p.written_bytes ≤ p.buffer.length := hwf.2.1
      omega
    obtain ⟨ihok, iherr⟩ :=
      writeLoop_wf (buf.take (min n (p.buffer.length - p.written_bytes))) p hwf hbound
    split at h
    · rename_i e heq
      simp only [Option.some.injEq, Prod.mk.injEq] at h
      obtain ⟨-, hq⟩ := h
      subst hq
      exact iherr _ heq
    · rename_i e heq
      simp only [Option.some.injEq, Prod.mk.injEq] at h
      obtain ⟨-, hq⟩ := h
      subst hq
      obtain ⟨a1, a2, a3, a4, a5, a6⟩ := ihok _ heq
      exact ⟨a1, a2, a5, a6⟩

lemma pipeWF_cyclicInv (p : pipe_cb) (hwf : pipeWF p) : cyclicInv p := by
  obtain ⟨hr, hwb, hw⟩ := hwf
  refine ⟨hwb, ?_⟩
  rw [hw]
  have h1 : (((p.r_position + p.written_bytes) % p.buffer.length : ℕ) : ℤ)
      = ((p.r_position : ℤ) + (p.written_bytes : ℤ)) % (p.buffer.length : ℤ) := by
    push_cast
    rfl
  rw [h1, Int.sub_emod, Int.emod_emod_of_dvd _ dvd_rfl, ← Int.sub_emod]
  congr 1
  ring

lemma writeLoop_fresh (cap : Nat) (L : List Char) :
    ∀ pre : List Char, pre.length + L.length ≤ cap →
    writeLoop (fullWriteState cap pre) L
      = Except.ok
        { reader := true, writer := true,
          w_position := (pre.length + L.length) % cap, r_position := 0,
          buffer := (pre ++ L) ++ List.replicate (cap - (pre.length + L.length)) c0,
          written_bytes := pre.length + L.length } := by
  induction L with
  | nil =>
    intro pre h
    simp [writeLoop, fullWriteState]
  | cons c rest ih =>
    intro pre h
    have hlt : pre.length < cap := by
      simp only [List.length_cons] at h
      omega
    have hmod : pre.length % cap = pre.length := Nat.mod_eq_of_lt hlt
    obtain ⟨m, hm⟩ : ∃ m, cap - pre.length = m + 1 := ⟨cap - pre.length - 1, by omega⟩
    have hrep : List.replicate (cap - pre.length) c0 = c0 :: List.replicate m c0 := by
      rw [hm, List.replicate_succ]
    have hget : (pre ++ List.replicate (cap - pre.length) c0).getD (pre.length % cap) c0
        = c0 := by
      rw [hmod, hrep, getD_append_len]
    have hlen : (pre ++ List.replicate (cap - pre.length) c0).length = cap := by
      simp only [List.length_append, List.length_replicate]
      omega
    have hstep : writeOne (fullWriteState cap pre) c = fullWriteState cap (pre ++ [c]) := by
      simp only [writeOne, fullWriteState, pipe_cb.mk.injEq]
      refine ⟨trivial, trivial, ?_, trivial, ?_, ?_⟩
      · rw [hmod, hlen, List.length_append]
        simp
      · rw [hmod, hrep, set_append_len]
        have hm2 : m = cap - (pre ++ [c]).length := by
          simp only [List.length_append, List.length_singleton]
          omega
        rw [hm2]
        simp [List.append_assoc]
      · simp
    have hcond : ¬((fullWriteState cap pre).buffer.getD
        (fullWriteState cap pre).w_position c0 ≠ c0) := by
      simp only [fullWriteState]
      rw [hget]
      exact fun hne => hne rfl
    have hb : (pre ++ [c]).length + rest.length ≤ cap := by
      simp only [List.length_append, List.length_cons, List.length_nil] at h ⊢
      omega
    have harith : (pre ++ [c]).length + rest.length = pre.length + (c :: rest).length := by
      simp only [List.length_append, List.length_cons, List.length_nil]
      omega
    rw [writeLoop, if_neg hcond, hstep, ih (pre ++ [c]) hb, harith]
    simp only [List.append_assoc, List.singleton_append]

lemma fullWriteState_len (cap : Nat) (B : List Char) (hlen : B.length ≤ cap) :
    (fullWriteState cap B).buffer.length = cap := by
  simp only [fullWriteState, List.length_append, List.length_replicate]
  omega

lemma fullWriteState_wf (cap : Nat) (B : List Char) (hcap : 0 < cap)
    (hlen : B.length ≤ cap) : pipeWF (fullWriteState cap B) := by
  refine ⟨?_, ?_, ?_⟩
  · simp only [fullWriteState, List.length_append, List.length_replicate]
    omega
  · simp only [fullWriteState, List.length_append, List.length_replicate]
    omega
  · simp only [fullWriteState, List.length_append, List.length_replicate]
    have h1 : B.length + (cap - B.length) = cap := by omega
    rw [h1, Nat.zero_add]

lemma readWindow_fullWriteState (cap : Nat) (B : List Char) (hlen : B.length ≤ cap) :
    readWindow (fullWriteState cap B) = B := by
  have hl : (fullWriteState cap B).buffer.length = cap := fullWriteState_len cap B hlen
  have hwb : (fullWriteState cap B).written_bytes = B.length := rfl
  have hr : (fullWriteState cap B).r_position = 0 := rfl
  simp only [readWindow, hwb, hr, hl, Nat.zero_add]
  have hcg : ∀ i ∈ List.range B.length,
      (fullWriteState cap B).buffer.getD (i % cap) c0 = B.getD i c0 := by
    intro i hi
    have hi2 : i < B.length := List.mem_range.mp hi
    rw [Nat.mod_eq_of_lt (Nat.lt_of_lt_of_le hi2 hlen)]
    show (B ++ List.replicate (cap - B.length) c0).getD i c0 = B.getD i c0
    exact getD_append_lt _ _ _ _ hi2
  rw [List.map_congr_left hcg]
  exact map_getD_range B c0

lemma pipe_write_fresh (cap : Nat) (B : List Char) (hcap : 0 < cap)
    (hlen : B.length ≤ cap) :
    pipe_write (init_pipe_obj_sized cap) B B.length
      = some ((B.length : Int), fullWriteState cap B) := by
  have h0 : init_pipe_obj_sized cap = fullWriteState cap [] := by
    simp [init_pipe_obj_sized, fullWriteState, init_list]
  have hloop := writeLoop_fresh cap B [] (by simpa using hlen)
  simp only [List.length_nil, Nat.zero_add, List.nil_append] at hloop
  rw [h0]
  have hlen0 : (fullWriteState cap []).buffer.length = cap :=
    fullWriteState_len cap [] (by simp)
  have hwb0 : (fullWriteState cap []).written_bytes = 0 := rfl
  have hwr0 : (fullWriteState cap []).writer = true := rfl
  have hrd0 : (fullWriteState cap []).reader = true := rfl
  have hmin2 : min B.length cap = B.length := Nat.min_eq_left hlen
  simp only [fullWriteState, List.length_nil, Nat.zero_mod, List.nil_append,
    Nat.sub_zero] at hloop
  have hcap2 : ¬ cap = 0 := by omega
  simp only [pipe_write, hlen0, hwb0, hwr0, hrd0, Nat.sub_zero, hmin2,
    List.take_length, fullWriteState, List.length_nil, Nat.zero_mod,
    List.nil_append]
  have hcast : ((B.length : Int)) ⊓ ((cap : Nat) : Int) = (B.length : Int) := by
    exact_mod_cast hmin2
  simp [hcap2, hloop, hmin2, hcast]

/-- C6: for any byte sequence `B` with `B.length` at most the buffer capacity,
writing `B` into a fresh pipe (`init_pipe_obj`) succeeds, returning
`B.length`, and any sequence of `pipe_read` calls that drains the buffer
(final `written_bytes = 0`) delivers exactly `B`, in order. -/
theorem pipe_write_read_roundtrip (B : List Char) (ns : List Nat)
    (hlen : B.length ≤ PIPE_BUFFER_SIZE) :
    pipe_write init_pipe_obj B B.length
      = some ((B.length : Int), fullWriteState PIPE_BUFFER_SIZE B) ∧
    ((pipe_read_many (fullWriteState PIPE_BUFFER_SIZE B) ns).2.written_bytes = 0 →
      (pipe_read_many (fullWriteState PIPE_BUFFER_SIZE B) ns).1 = B) := by
  have hcap : 0 < PIPE_BUFFER_SIZE := by norm_num [PIPE_BUFFER_SIZE]
  constructor
  · exact pipe_write_fresh PIPE_BUFFER_SIZE B hcap hlen
  · intro hdrained
    have hwf := fullWriteState_wf PIPE_BUFFER_SIZE B hcap hlen
    have hspec := pipe_read_many_spec ns (fullWriteState PIPE_BUFFER_SIZE B) hwf
    have hempty :
        readWindow (pipe_read_many (fullWriteState PIPE_BUFFER_SIZE B) ns).2 = [] := by
      simp [readWindow, hdrained]
    rw [hempty, List.append_nil, readWindow_fullWriteState PIPE_BUFFER_SIZE B hlen]
      at hspec
    exact hspec

/-- Witness for the round-trip theorem at a concrete input. -/
theorem pipe_write_read_roundtrip_witness :
    (['h', 'i'] : List Char).length ≤ PIPE_BUFFER_SIZE ∧
    (pipe_write init_pipe_obj ['h', 'i'] (['h', 'i'] : List Char).length
      = some (((['h', 'i'] : List Char).length : Int),
              fullWriteState PIPE_BUFFER_SIZE ['h', 'i']) ∧
    ((pipe_read_many (fullWriteState PIPE_BUFFER_SIZE ['h', 'i']) [2]).2.written_bytes = 0 →
      (pipe_read_many (fullWriteState PIPE_BUFFER_SIZE ['h', 'i']) [2]).1 = ['h', 'i'])) :=
  ⟨by decide, pipe_write_read_roundtrip ['h', 'i'] [2] (by decide)⟩

lemma init_pipe_obj_wf : pipeWF init_pipe_obj := by
  refine ⟨?_, ?_, ?_⟩ <;>
    simp only [init_pipe_obj, init_pipe_obj_sized, init_list,
      List.length_replicate, PIPE_BUFFER_SIZE] <;>
    norm_num

/-- C7 (amended): the construction `init_pipe_obj` establishes, and
`pipe_write`/`pipe_read` preserve, the occupancy invariant
`0 ≤ count ≤ capacity` together with
`(w_pos - r_pos) mod capacity = count mod capacity` (the form that also
holds when the buffer is completely full, where the original
`(w_pos - r_pos) mod capacity = count` fails). -/
theorem pipe_cyclic_invariant_mod (p : pipe_cb) (B : List Char) (n m : Nat)
    (hwf : pipeWF p) :
    (pipeWF init_pipe_obj ∧ cyclicInv init_pipe_obj) ∧
    cyclicInv p ∧
    (∀ r q, pipe_write p B n = some (r, q) → pipeWF q ∧ cyclicInv q) ∧
    (∀ r cs q, pipe_read p m = some (r, cs, q) → pipeWF q ∧ cyclicInv q) := by
  have hinit : pipeWF init_pipe_obj := init_pipe_obj_wf
  refine ⟨⟨hinit, pipeWF_cyclicInv _ hinit⟩, pipeWF_cyclicInv p hwf, ?_, ?_⟩
  · intro r q h
    have hq := pipe_write_wf p B n hwf r q h
    exact ⟨hq.1, pipeWF_cyclicInv q hq.1⟩
  · intro r cs q h
    have hq := pipe_read_spec p m hwf r cs q h
    exact ⟨hq.2.1, pipeWF_cyclicInv q hq.2.1⟩

/-- Witness for the invariant theorem at a concrete state. -/
theorem pipe_cyclic_invariant_mod_witness :
    pipeWF init_pipe_obj ∧
    ((pipeWF init_pipe_obj ∧ cyclicInv init_pipe_obj) ∧
    cyclicInv init_pipe_obj ∧
    (∀ r q, pipe_write init_pipe_obj ['a'] 1 = some (r, q) → pipeWF q ∧ cyclicInv q) ∧
    (∀ r cs q, pipe_read init_pipe_obj 1 = some (r, cs, q) → pipeWF q ∧ cyclicInv q)) :=
  ⟨init_pipe_obj_wf, pipe_cyclic_invariant_mod init_pipe_obj ['a'] 1 1 init_pipe_obj_wf⟩

/-- C7 counterexample: writing a full bufferload into a fresh pipe reaches the
quiescent state `fullA` with `count = capacity = PIPE_BUFFER_SIZE`, where
the claimed equation `(w_pos - r_pos) mod capacity = count` is false
(`(0 - 0) mod 32768 = 0 ≠ 32768`). -/
theorem pipe_full_cyclic_distance_cex :
    pipe_write init_pipe_obj (List.replicate PIPE_BUFFER_SIZE 'A') PIPE_BUFFER_SIZE
      = some ((PIPE_BUFFER_SIZE : Int), fullA) ∧
    ¬ (((fullA.w_position : Int) - (fullA.r_position : Int))
          % (fullA.buffer.length : Int)
        = (fullA.written_bytes : Int)) := by
  constructor
  · have h := pipe_write_fresh PIPE_BUFFER_SIZE (List.replicate PIPE_BUFFER_SIZE 'A')
      (by norm_num [PIPE_BUFFER_SIZE]) (by simp only [List.length_replicate, le_refl])
    have hfs : fullWriteState PIPE_BUFFER_SIZE (List.replicate PIPE_BUFFER_SIZE 'A')
        = fullA := by
      simp only [fullWriteState, fullA, List.length_replicate, Nat.mod_self,
        Nat.sub_self, List.replicate_zero, List.append_nil]
    rw [hfs] at h
    have hlen3 : (List.replicate PIPE_BUFFER_SIZE 'A').length = PIPE_BUFFER_SIZE := by
      simp only [List.length_replicate]
    rw [hlen3] at h
    exact h
  · have hw : fullA.w_position = 0 := rfl
    have hr : fullA.r_position = 0 := rfl
    have hwb : fullA.written_bytes = PIPE_BUFFER_SIZE := rfl
    have hlenA : fullA.buffer.length = PIPE_BUFFER_SIZE := by
      simp only [fullA, List.length_replicate]
    rw [hw, hr, hwb, hlenA]
    norm_num [PIPE_BUFFER_SIZE]

/-- C3 is violated by the source: a writer that blocks on the full pipe is
never unblocked by the reader draining data, because `availableSpace` is
computed before the wait loop and never re-evaluated.  Concretely: the
pipe is full (`fullA`, reachable by writing a full bufferload into a fresh
pipe); a write of one byte computes `availableSpace = 0` and suspends;
the reader drains one byte (returning `'A'`); on wake-up the loop guard
still sees the stale `availableSpace = 0` with the reader open, so the
writer blocks again, even though the claimed `k = min(n, capacity - count)`
re-evaluated after the drain equals 1. -/
lemma pipe_write_full_blocks (p : pipe_cb) (buf : List Char) (n : Nat)
    (hw : p.writer = true) (hr : p.reader = true)
    (hfull : p.buffer.length - p.written_bytes = 0) :
    pipe_write p buf n = none := by
  simp only [pipe_write, hw, hr, hfull]
  norm_num

lemma pipe_read_one (p : pipe_cb) (n : Nat) (hr : p.reader = true)
    (hpos : ¬ p.written_bytes = 0) (hn : min n p.written_bytes = 1) :
    pipe_read p n = some (1, [(readOne p).1], (readOne p).2) := by
  have hrl : readLoop p 1 = ([(readOne p).1], (readOne p).2) := rfl
  simp only [pipe_read, hr, hpos, hn, hrl, and_false, if_false, Nat.cast_one]
  norm_num

lemma readOne_closed (rd wr : Bool) (w : Nat) (x : Char) (t : List Char) (wb : Nat) :
    readOne (pipe_cb.mk rd wr w 0 (x :: t) wb)
      = (x, pipe_cb.mk rd wr w (1 % (t.length + 1)) (c0 :: t) (wb - 1)) := by
  simp [readOne, List.length_cons]

theorem pipe_write_stale_space_blocks :
    pipe_write init_pipe_obj (List.replicate PIPE_BUFFER_SIZE 'A') PIPE_BUFFER_SIZE
      = some ((PIPE_BUFFER_SIZE : Int), fullA) ∧
    availableSpaceAtEntry fullA = 0 ∧
    pipe_write fullA ['B'] 1 = none ∧
    pipe_read fullA 1 = some (1, ['A'], drainedA) ∧
    pipe_write_block_guard (availableSpaceAtEntry fullA) drainedA = true ∧
    min 1 (availableSpaceAtEntry drainedA) = 1 := by
  have hlenA : fullA.buffer.length = PIPE_BUFFER_SIZE := by
    simp only [fullA, List.length_replicate]
  have hwbA : fullA.written_bytes = PIPE_BUFFER_SIZE := rfl
  have hwrA : fullA.writer = true := rfl
  have hrdA : fullA.reader = true := rfl
  have havail : availableSpaceAtEntry fullA = 0 := by
    rw [availableSpaceAtEntry, hlenA, hwbA, Nat.sub_self]
  refine ⟨?_, havail, ?_, ?_, ?_, ?_⟩
  · have h := pipe_write_fresh PIPE_BUFFER_SIZE (List.replicate PIPE_BUFFER_SIZE 'A')
      (by norm_num [PIPE_BUFFER_SIZE]) (by simp only [List.length_replicate, le_refl])
    have hfs : fullWriteState PIPE_BUFFER_SIZE (List.replicate PIPE_BUFFER_SIZE 'A')
        = fullA := by
      simp only [fullWriteState, fullA, List.length_replicate, Nat.mod_self,
        Nat.sub_self, List.replicate_zero, List.append_nil]
    rw [hfs] at h
    have hlen3 : (List.replicate PIPE_BUFFER_SIZE 'A').length = PIPE_BUFFER_SIZE := by
      simp only [List.length_replicate]
    rw [hlen3] at h
    exact h
  · exact pipe_write_full_blocks fullA ['B'] 1 rfl rfl
      (by rw [hlenA, hwbA, Nat.sub_self])
  · have hrepA : List.replicate PIPE_BUFFER_SIZE 'A'
        = 'A' :: List.replicate 32767 'A' := by
      rw [show PIPE_BUFFER_SIZE = 32767 + 1 by norm_num [PIPE_BUFFER_SIZE],
        List.replicate_succ]
    have h1 :
        fullA
          = pipe_cb.mk true true 0 0 ('A' :: List.replicate 32767 'A') PIPE_BUFFER_SIZE := by
      unfold fullA
      rw [hrepA]
    have hro := readOne_closed true true 0 'A' (List.replicate 32767 'A') PIPE_BUFFER_SIZE
    rw [List.length_replicate] at hro
    rw [show (1 : Nat) % (32767 + 1) = 1 by norm_num] at hro
    rw [show PIPE_BUFFER_SIZE - 1 = 32767 by norm_num [PIPE_BUFFER_SIZE]] at hro
    rw [h1, pipe_read_one _ 1 rfl (by norm_num [PIPE_BUFFER_SIZE])
      (by norm_num [PIPE_BUFFER_SIZE]), hro]
    rfl
  · have hdr : drainedA.reader = true := rfl
    simp only [pipe_write_block_guard, havail, hdr, beq_self_eq_true, Bool.and_self]
  · have hb : drainedA.buffer = c0 :: List.replicate 32767 'A' := rfl
    have hwbD : drainedA.written_bytes = 32767 := rfl
    have hlenD : drainedA.buffer.length = 32768 := by
      rw [hb, List.length_cons, List.length_replicate]
    have h5 : availableSpaceAtEntry drainedA = 1 := by
      rw [availableSpaceAtEntry, hlenD, hwbD]
    rw [h5, Nat.min_self]

lemma getD_set_eq {α : Type} [Inhabited α] (l : List α) (i : Nat) (a d : α)
    (h : i < l.length) : (l.set i a).getD i d = a := by
  induction l generalizing i with
  | nil => simp at h
  | cons x xs ih =>
    cases i with
    | zero => simp
    | succ i =>
      simp only [List.set_cons_succ, List.getD_cons_succ]
      exact ih i (by simpa using h)

lemma getD_replicate_self (n j : Nat) (a : Char) :
    (List.replicate n a).getD j a = a := by
  induction n generalizing j with
  | zero => simp
  | succ n ih =>
    cases j with
    | zero => rw [List.replicate_succ, List.getD_cons_zero]
    | succ j => rw [List.replicate_succ, List.getD_cons_succ, ih]

lemma nulOutside_init (size : Nat) : nulOutside (init_pipe_obj_sized size) := by
  intro j hj hout
  show (List.replicate size c0).getD j c0 = c0
  exact getD_replicate_self size j c0

lemma readOne_nul (p : pipe_cb) (hwf : pipeWF p) (hnul : nulOutside p) :
    nulOutside (readOne p).2 := by
  obtain ⟨hr, hwb, hw⟩ := hwf
  intro j hj hout
  simp only [readOne, List.length_set] at hj hout ⊢
  by_cases hjr : j = p.r_position
  · subst hjr
    exact getD_set_eq _ _ _ _ hr
  · rw [getD_set_ne _ _ _ _ _ (fun hh => hjr hh.symm)]
    apply hnul j hj
    intro i hi
    cases i with
    | zero =>
      rw [Nat.add_zero, Nat.mod_eq_of_lt hr]
      exact fun hh => hjr hh
    | succ i =>
      have hi2 : i < p.written_bytes - 1 := by omega
      have hne := hout i hi2
      intro hh
      apply hne
      rw [hh, Nat.mod_add_mod]
      congr 1
      omega

lemma readLoop_nul (k : Nat) :
    ∀ p : pipe_cb, pipeWF p → k ≤ p.written_bytes → nulOutside p →
    nulOutside (readLoop p k).2 := by
  induction k with
  | zero => intro p hwf hk hnul; exact hnul
  | succ k ih =>
    intro p hwf hk hnul
    have hpos : 0 < p.written_bytes := Nat.lt_of_lt_of_le (Nat.succ_pos k) hk
    obtain ⟨hwf1, hlen1, hwb1, -, -, -, -⟩ := readOne_spec p hwf hpos
    have hk1 : k ≤ (readOne p).2.written_bytes := by omega
    have := ih (readOne p).2 hwf1 hk1 (readOne_nul p hwf hnul)
    simpa [readLoop] using this

lemma writeOne_nul (p : pipe_cb) (c : Char) (hwf : pipeWF p)
    (hnul : nulOutside p) : nulOutside (writeOne p c) := by
  obtain ⟨hr, hwb, hw⟩ := hwf
  intro j hj hout
  simp only [writeOne, List.length_set] at hj hout ⊢
  have hjw : j ≠ p.w_position := by
    have hne := hout p.written_bytes (Nat.lt_succ_self _)
    rw [hw]
    exact hne
  rw [getD_set_ne _ _ _ _ _ (fun hh => hjw hh.symm)]
  apply hnul j hj
  intro i hi
  exact hout i (Nat.lt_succ_of_lt hi)

lemma writeLoop_nul (L : List Char) :
    ∀ p : pipe_cb, pipeWF p → nulOutside p →
    p.written_bytes + L.length ≤ p.buffer.length →
    ∃ q, writeLoop p L = Except.ok q ∧ nulOutside q := by
  induction L with
  | nil => intro p hwf hnul hle; exact ⟨p, rfl, hnul⟩
  | cons c rest ih =>
    intro p hwf hnul hle
    obtain ⟨hr, hwb, hw⟩ := hwf
    have hlt : p.written_bytes < p.buffer.length := by
      simp only [List.length_cons] at hle
      omega
    have hlen0 : 0 < p.buffer.length := Nat.lt_of_le_of_lt (Nat.zero_le _) hr
    have hwslot : p.buffer.getD p.w_position c0 = c0 := by
      apply hnul p.w_position (by rw [hw]; exact Nat.mod_lt _ hlen0)
      intro i hi
      rw [hw]
      intro hh
      have hmod : p.r_position + i ≡ p.r_position + p.written_bytes [MOD p.buffer.length] := by
        unfold Nat.ModEq
        rw [hh]
      have hle2 : p.r_position + i ≤ p.r_position + p.written_bytes := by omega
      have hdvd := (Nat.modEq_iff_dvd' hle2).mp hmod
      have hdvd2 : p.buffer.length ∣ p.written_bytes - i := by
        have he : p.r_position + p.written_bytes - (p.r_position + i)
            = p.written_bytes - i := by omega
        rw [he] at hdvd
        exact hdvd
      have := Nat.eq_zero_of_dvd_of_lt hdvd2 (by omega)
      omega
    have hcond : ¬ (p.buffer.getD p.w_position c0 ≠ c0) := by
      rw [hwslot]
      exact fun hne => hne rfl
    obtain ⟨hwf1, hlen1, -, hwb1, -, -⟩ := writeOne_wf p c ⟨hr, hwb, hw⟩ hlt
    have hle1 : (writeOne p c).written_bytes + rest.length
        ≤ (writeOne p c).buffer.length := by
      rw [hwb1, hlen1]
      simp only [List.length_cons] at hle
      omega
    obtain ⟨q, hq, hnq⟩ := ih (writeOne p c) hwf1
      (writeOne_nul p c ⟨hr, hwb, hw⟩ hnul) hle1
    refine ⟨q, ?_, hnq⟩
    rw [writeLoop, if_neg hcond]
    exact hq

lemma pipe_write_open_eq (p : pipe_cb) (buf : List Char) (n : Nat)
    (hw : p.writer = true) (hr : p.reader = true)
    (hnz : ¬ (p.buffer.length - p.written_bytes = 0)) :
    pipe_write p buf n
      = match writeLoop p (buf.take (min n (p.buffer.length - p.written_bytes))) with
        | Except.error q => some (-1, q)
        | Except.ok q => some ((((min n (p.buffer.length - p.written_bytes) : Nat)) : Int), q) := by
  simp only [pipe_write, hw, hr]
  rw [if_neg (show ¬ (true = false) by simp), if_neg (show ¬ (true = false) by simp),
    if_neg hnz]

lemma pipe_read_open_eq (p : pipe_cb) (n : Nat) (hr : p.reader = true) :
    pipe_read p n
      = if p.writer = false ∧ p.written_bytes = 0 then some (0, [], p)
        else if p.written_bytes = 0 then none
        else some ((((min n p.written_bytes : Nat)) : Int),
          (readLoop p (min n p.written_bytes)).1,
          (readLoop p (min n p.written_bytes)).2) := by
  simp only [pipe_read, hr]
  rw [if_neg (show ¬ (true = false) by simp)]

/-- C10: every slot outside the unread region of a pipe holds NUL.  The
invariant is established by construction (`init_pipe_obj`), preserved by
`pipe_read` (each consumed slot is reset to NUL) and by `pipe_write`, and
under it (with both endpoints open, and writing bytes that are themselves
non-NUL, as the claim supposes) the defensive overwrite check of
`pipe_write` is unreachable: every completed call returns a non-negative
count, never the defensive `-1`. -/
theorem pipe_nul_outside_unread (p : pipe_cb) (B : List Char) (n m : Nat)
    (hwf : pipeWF p) (hnul : nulOutside p)
    (hwopen : p.writer = true) (hropen : p.reader = true)
    (hB : ∀ c ∈ B, c ≠ c0) :
    nulOutside init_pipe_obj ∧
    (∀ r q, pipe_write p B n = some (r, q) → 0 ≤ r ∧ nulOutside q ∧ pipeWF q) ∧
    (∀ r cs q, pipe_read p m = some (r, cs, q) → nulOutside q ∧ pipeWF q) := by
  refine ⟨nulOutside_init PIPE_BUFFER_SIZE, ?_, ?_⟩
  · intro r q h
    by_cases hnz : p.buffer.length - p.written_bytes = 0
    · rw [pipe_write_full_blocks p B n hwopen hropen hnz] at h
      exact absurd h (by simp)
    · rw [pipe_write_open_eq p B n hwopen hropen hnz] at h
      have hbound : p.written_bytes
          + (B.take (min n (p.buffer.length - p.written_bytes))).length
          ≤ p.buffer.length := by
        simp only [List.length_take]
        have h4 : min n (p.buffer.length - p.written_bytes)
            ≤ p.buffer.length - p.written_bytes := Nat.min_le_right _ _
        have h5 : p.written_bytes ≤ p.buffer.length := hwf.2.1
        omega
      obtain ⟨q0, hq0, hnq0⟩ :=
        writeLoop_nul (B.take (min n (p.buffer.length - p.written_bytes))) p hwf hnul hbound
      rw [hq0] at h
      simp only [Option.some.injEq, Prod.mk.injEq] at h
      obtain ⟨hr2, hq2⟩ := h
      subst hq2
      obtain ⟨ihok, -⟩ := writeLoop_wf
        (B.take (min n (p.buffer.length - p.written_bytes))) p hwf hbound
      refine ⟨?_, hnq0, (ihok q0 hq0).1⟩
      rw [← hr2]
      exact Int.natCast_nonneg _
  · intro r cs q h
    have hspec := pipe_read_spec p m hwf r cs q h
    refine ⟨?_, hspec.2.1⟩
    rw [pipe_read_open_eq p m hropen] at h
    split_ifs at h with h2 h3
    · simp only [Option.some.injEq, Prod.mk.injEq] at h
      obtain ⟨-, -, hq⟩ := h
      subst hq
      exact hnul
    · simp only [Option.some.injEq, Prod.mk.injEq] at h
      obtain ⟨-, -, hq⟩ := h
      subst hq
      have hk : min m p.written_bytes ≤ p.written_bytes := Nat.min_le_right m _
      exact readLoop_nul (min m p.written_bytes) p hwf hk hnul

/-- Witness for the NUL-outside-unread theorem at a concrete input. -/
theorem pipe_nul_outside_unread_witness :
    (pipeWF init_pipe_obj ∧ nulOutside init_pipe_obj ∧
      init_pipe_obj.writer = true ∧ init_pipe_obj.reader = true ∧
      (∀ c ∈ (['x'] : List Char), c ≠ c0)) ∧
    (nulOutside init_pipe_obj ∧
    (∀ r q, pipe_write init_pipe_obj ['x'] 1 = some (r, q) →
      0 ≤ r ∧ nulOutside q ∧ pipeWF q) ∧
    (∀ r cs q, pipe_read init_pipe_obj 1 = some (r, cs, q) →
      nulOutside q ∧ pipeWF q)) :=
  ⟨⟨init_pipe_obj_wf, nulOutside_init PIPE_BUFFER_SIZE, rfl, rfl, by decide⟩,
   pipe_nul_outside_unread init_pipe_obj ['x'] 1 1 init_pipe_obj_wf
     (nulOutside_init PIPE_BUFFER_SIZE) rfl rfl (by decide)⟩

/-- C1 is violated by the source: `sys_ShutDown` on a connected peer socket
returns `-1` for every `how` and leaves both pipe fields untouched, because
of the unconditional `return -1` at entry (line 261); the dead code after
that return would have returned 0 and nulled the field, as the claim
demands. -/
theorem shutDown_always_fails_on_peer :
    sys_ShutDown peerSock shutdown_mode.SHUTDOWN_READ = (-1, peerSock) ∧
    sys_ShutDown peerSock shutdown_mode.SHUTDOWN_WRITE = (-1, peerSock) ∧
    sys_ShutDown peerSock shutdown_mode.SHUTDOWN_BOTH = (-1, peerSock) ∧
    peerSock.peer_read_pipe ≠ none ∧
    peerSock.peer_write_pipe ≠ none ∧
    (sys_ShutDown_dead_code true peerSock shutdown_mode.SHUTDOWN_READ).1 = 0 ∧
    (sys_ShutDown_dead_code true peerSock shutdown_mode.SHUTDOWN_READ).2.peer_read_pipe
      = none := by
  refine ⟨rfl, rfl, rfl, ?_, ?_, rfl, rfl⟩
  · intro h
    exact Option.noConfusion h
  · intro h
    exact Option.noConfusion h

/-- C2 is violated by the source: thread 1 joining thread 2 suspends on cv 1
(its own PTCB's `exit_cv`, line 142), so when thread 2 exits and broadcasts
cv 2 (line 194), the joiner is not among the waiters on cv 2 and stays
blocked, instead of being released to observe `exited == true`. -/
theorem threadJoin_waits_on_own_cv_not_woken :
    join_wait_cv 1 2 = 1 ∧
    join_wait_cv 1 2 ≠ 2 ∧
    threadExit_still_blocked 2 (threadJoin_block 1 2 []) = [(1, 1)] := by
  refine ⟨rfl, by decide, rfl⟩

/-- C4 is violated by the source: close the listener while an acceptor is
blocked on an empty request queue.  The close uninstalls the listener and
broadcasts `req_available`, but the woken acceptor re-tests only
`is_rlist_empty` (line 136) and re-enters `kernel_wait` — for any number of
wake-ups it never leaves the loop and never returns `-1`; no new request
can refill the queue (`connect_enqueue_allowed = false`), and the line-144
validation that would return `-1` is unreachable while the queue is empty. -/
theorem accept_blocked_forever_after_listener_close (fuel : Nat) :
    accept_loop_guard (socket_close_listener ⟨true, true⟩) = AcceptWakeStep.wait_again ∧
    accept_wait_loop fuel (socket_close_listener ⟨true, true⟩) = none ∧
    connect_enqueue_allowed
      (socket_close_listener ⟨true, true⟩).listener_installed = false ∧
    accept_post_loop_check (socket_close_listener ⟨true, true⟩) = false := by
  refine ⟨rfl, ?_, rfl, rfl⟩
  induction fuel with
  | zero => rfl
  | succ fuel ih =>
    rw [accept_wait_loop]
    exact ih

/-- C5 counterexample: when descriptor reservation fails after Accept pops a
request (modelled by `peer_fid = -1`), the request's `admitted` flag does
NOT remain 0 — line 151 has already set it to 1 — and the connector's
`Connect`, timing out, observes `admitted == 1` and returns 0, not `-1` as
the claim states. -/
theorem accept_failure_admitted_cex :
    (accept_serve_request { admitted := 0 } (-1)).1 = -1 ∧
    (accept_serve_request { admitted := 0 } (-1)).2.admitted = 1 ∧
    connect_after_wait (accept_serve_request { admitted := 0 } (-1)).2 = 0 := by
  refine ⟨rfl, rfl, rfl⟩

/-- C5 (amended): if Accept pops a connection request and then fails to
reserve the descriptor for the new peer socket, the request's `admitted`
flag has already been set to 1 (before the attempt), so the connector's
Connect call — which returns 0 iff `admitted == 1` — observes
`admitted == 1` after its timeout and returns 0. -/
theorem accept_failure_admitted_one_connect_zero
    (req : connection_request) (peer_fid : Int) (hfail : peer_fid = -1) :
    (accept_serve_request req peer_fid).1 = -1 ∧
    (accept_serve_request req peer_fid).2.admitted = 1 ∧
    connect_after_wait (accept_serve_request req peer_fid).2 = 0 := by
  subst hfail
  refine ⟨?_, rfl, rfl⟩
  simp [accept_serve_request]

/-- Witness for the amended C5 theorem at a concrete input. -/
theorem accept_failure_admitted_one_connect_zero_witness :
    ((-1 : Int) = -1) ∧
    ((accept_serve_request { admitted := 0 } (-1)).1 = -1 ∧
    (accept_serve_request { admitted := 0 } (-1)).2.admitted = 1 ∧
    connect_after_wait (accept_serve_request { admitted := 0 } (-1)).2 = 0) :=
  ⟨rfl, accept_failure_admitted_one_connect_zero { admitted := 0 } (-1) rfl⟩

/-- C8 counterexample: a non-last thread (`thread_count = 2`) with no joiners
(`runningPTCB`, refcount 1) exits: afterwards `refcount = 0` and
`exited = true`, yet the PTCB is NOT freed, because the `free` of line 241
sits inside the `thread_count == 0` branch — refuting "freed exactly when
refcount reaches 0 AND exited". -/
theorem ptcb_refcount_zero_exited_not_freed_cex :
    (sys_ThreadExit 2 7 runningPTCB).2.refcount = 0 ∧
    (sys_ThreadExit 2 7 runningPTCB).2.exited = true ∧
    (sys_ThreadExit 2 7 runningPTCB).2.freed = false := by
  refine ⟨rfl, rfl, rfl⟩

/-- C8 (amended): a PTCB is freed ONLY at a point where its refcount is 0
and its `exited` flag is true — in particular no operation frees a PTCB
whose thread has not exited — but the converse direction of the original
claim fails (see the counterexample): `ThreadExit` of a non-last thread
leaves an exited PTCB with refcount 0 unfreed.  For `ThreadJoin` the
hypotheses are the wait-loop exit condition and the refcount accounting
invariant (`refcount = 1 + #joiners - (1 if exited)`, with the caller among
the joiners). -/
theorem ptcb_freed_only_if_exited_and_refcount_zero
    (p : PTCB) (J tc xv : Int) (g : Bool)
    (hnotfreed : p.freed = false)
    (hloop : p.exited = true ∨ p.detached = true)
    (hrc : p.refcount = 1 + J - (if p.exited then 1 else 0))
    (hJ : 1 ≤ J) :
    ((threadJoin_after_wait p).2.freed = true →
      (threadJoin_after_wait p).2.refcount = 0 ∧
      (threadJoin_after_wait p).2.exited = true) ∧
    ((sys_ThreadExit tc xv p).2.freed = true →
      (sys_ThreadExit tc xv p).2.refcount = 0 ∧
      (sys_ThreadExit tc xv p).2.exited = true) ∧
    (sys_ThreadDetach g p).2.freed = p.freed := by
  refine ⟨?_, ?_, ?_⟩
  · intro hfreed
    simp only [threadJoin_after_wait] at hfreed ⊢
    by_cases hz : p.refcount - 1 = 0
    · simp only [if_pos hz] at hfreed ⊢
      refine ⟨hz, ?_⟩
      by_cases he : p.exited = true
      · simp [he]
      · exfalso
        rw [if_neg he] at hrc
        omega
    · simp only [if_neg hz] at hfreed
      rw [hfreed] at hnotfreed
      exact absurd hnotfreed (by simp)
  · intro hfreed
    simp only [sys_ThreadExit] at hfreed ⊢
    by_cases htc : tc - 1 = 0
    · simp only [if_pos htc] at hfreed ⊢
      by_cases hz : p.refcount - 1 = 0
      · simp only [if_pos hz] at hfreed ⊢
        simp [hz]
      · simp only [if_neg hz] at hfreed
        rw [hfreed] at hnotfreed
        exact absurd hnotfreed (by simp)
    · simp only [if_neg htc] at hfreed
      rw [hfreed] at hnotfreed
      exact absurd hnotfreed (by simp)
  · simp only [sys_ThreadDetach]
    by_cases hg : g = true
    · rw [if_pos hg]
    · simp only [Bool.not_eq_true] at hg
      rw [hg]
      simp

/-- Witness for the amended C8 theorem at a concrete state (`exitedPTCB`,
an exited thread with its single joiner finishing). -/
theorem ptcb_freed_only_if_exited_and_refcount_zero_witness :
    (exitedPTCB.freed = false ∧
      (exitedPTCB.exited = true ∨ exitedPTCB.detached = true) ∧
      exitedPTCB.refcount = 1 + 1 - (if exitedPTCB.exited then 1 else 0) ∧
      (1 : Int) ≤ 1) ∧
    (((threadJoin_after_wait exitedPTCB).2.freed = true →
      (threadJoin_after_wait exitedPTCB).2.refcount = 0 ∧
      (threadJoin_after_wait exitedPTCB).2.exited = true) ∧
    ((sys_ThreadExit 5 3 exitedPTCB).2.freed = true →
      (sys_ThreadExit 5 3 exitedPTCB).2.refcount = 0 ∧
      (sys_ThreadExit 5 3 exitedPTCB).2.exited = true) ∧
    (sys_ThreadDetach true exitedPTCB).2.freed = exitedPTCB.freed) :=
  ⟨⟨rfl, Or.inl rfl, by decide, by decide⟩,
   ptcb_freed_only_if_exited_and_refcount_zero exitedPTCB 1 5 3 true rfl
     (Or.inl rfl) (by decide) (by decide)⟩

/-- C9 is violated by the source: calling `ThreadJoin` from the thread with
PTCB address 5 on tid 7, which is absent from the process's thread list
(holding PTCBs 5 and 9), does not return `-1` — line 114 dereferences the
NULL result of the failed `rlist_find` before the NULL check of line 117
can run. -/
theorem threadJoin_absent_tid_null_deref :
    threadJoin_lookup 5 7 [5, 9] = JoinLookupOutcome.null_deref ∧
    threadJoin_lookup 5 7 [5, 9] ≠ JoinLookupOutcome.returns (-1) ∧
    rlist_find [5, 9] 7 = none := by
  refine ⟨by decide, by decide, by decide⟩
